import Mathlib

/-!
Verification of the grammY runtime filter-query compiler (`src/mod.ts`).

The development shallowly embeds the TypeScript source: JavaScript values
are modelled by the inductive `Value` (objects as association lists, arrays
as element lists; numeric array indices and implicit properties such as
`length` are not modelled, matching the spec's data model of events as
nested string-keyed mappings), and each source function (`parse`, `expand`,
`testMaybeArray`, `buildPredicate`, `compile`, `runtimeQuery`) becomes a
Lean function of the same name.  A missing property yields `Value.vundefined`;
an explicit `null` is `Value.vnull`; the JavaScript loose test `x == null`
is `isNullish`.
-/

namespace GrammyMatchQuery

/-- Model of a JavaScript value as found in a Telegram update payload. -/
inductive Value where
  | vnull
  | vundefined
  | str (s : String)
  | num (n : Int)
  | boolean (b : Bool)
  | obj (fields : List (String × Value))
  | arr (elems : List Value)

/-- Association-list lookup of an object field; a missing key gives
JavaScript `undefined`. -/
def lookupField : List (String × Value) → String → Value
  | [], _ => .vundefined
  | (k, v) :: rest, key => if k == key then v else lookupField rest key

/-- JavaScript property access `v[key]` on a non-nullish value: a field of
an object, `undefined` on anything else (primitives and arrays have no
modelled string-keyed own properties). -/
def getProp : Value → String → Value
  | .obj fields, key => lookupField fields key
  | _, _ => .vundefined

/-- The value is JavaScript `null`. -/
def isNull : Value → Bool
  | .vnull => true
  | _ => false

/-- The value is JavaScript `undefined`. -/
def isUndefined : Value → Bool
  | .vundefined => true
  | _ => false

/-- JavaScript loose equality `x == null`, true for both `null` and
`undefined`. -/
def isNullish : Value → Bool
  | .vnull => true
  | .vundefined => true
  | _ => false

/-- JavaScript strict equality `item.type === l3` where `l3` is a string:
true only when the `type` property is a string with the same characters. -/
def typeEq (item : Value) (l3 : String) : Bool :=
  match getProp item "type" with
  | .str s => s == l3
  | _ => false

/-- L1 shortcuts table from `src/mod.ts`. -/
def L1_SHORTCUTS : List (String × List String) :=
  [("", ["message", "channel_post"]),
   ("msg", ["message", "channel_post"]),
   ("edit", ["edited_message", "edited_channel_post"])]

/-- L2 shortcuts table from `src/mod.ts`. -/
def L2_SHORTCUTS : List (String × List String) :=
  [("", ["entities", "caption_entities"]),
   ("media", ["photo", "video"]),
   ("file", ["photo", "animation", "audio", "document", "video",
             "video_note", "voice", "sticker"])]

/-- Splitting a character list on `:` exactly as JavaScript
`String.prototype.split(":")` does: every separator splits, empty
segments are preserved, and the empty input gives one empty segment. -/
def splitColonAux : List Char → List String
  | [] => [""]
  | c :: rest =>
    if c = ':' then "" :: splitColonAux rest
    else
      match splitColonAux rest with
      | [] => [String.mk [c]]
      | s :: ss => String.mk (c :: s.data) :: ss

/-- Embeds `parse` from `src/mod.ts`: `query.split(":")`. -/
def parse (query : String) : List String :=
  splitColonAux query.data

/-- JavaScript truthiness test `!x` on a `string | undefined` value:
falsy exactly for `undefined` and the empty string. -/
def falsy : Option String → Bool
  | none => true
  | some s => s == ""

/-- The non-degenerate body of `expand` from `src/mod.ts`: expand L1
shortcuts, then expand L2 shortcuts over every candidate.  A path is a
length-3 list whose entries model `string | undefined`. -/
def expandCore (l1 l2 l3 : Option String) : List (List (Option String)) :=
  let expanded : List (List (Option String)) :=
    match l1 with
    | some s1 =>
      match List.lookup s1 L1_SHORTCUTS with
      | some targets => targets.map (fun s => [some s, l2, l3])
      | none => [[l1, l2, l3]]
    | none => [[l1, l2, l3]]
  expanded.flatMap (fun q =>
    let ql1 := (q.get? 0).join
    let ql2 := (q.get? 1).join
    let ql3 := (q.get? 2).join
    match ql2 with
    | some s2 =>
      match List.lookup s2 L2_SHORTCUTS with
      | some targets => targets.map (fun s => [ql1, some s, ql3])
      | none => [q]
    | none => [q])

/-- Embeds `expand` from `src/mod.ts`.  When all of the first three parts
are falsy the original parts list is returned unchanged (each part wrapped
in `some`, segments beyond position 2 kept verbatim, never read later). -/
def expand (parts : List String) : List (List (Option String)) :=
  if falsy (parts.get? 0) && falsy (parts.get? 1) && falsy (parts.get? 2) then
    [parts.map some]
  else
    expandCore (parts.get? 0) (parts.get? 1) (parts.get? 2)

/-- Embeds `testMaybeArray` from `src/mod.ts`: apply the predicate to every
element of an array (any-semantics) or to the single value, guarding each
application with a non-null check. -/
def testMaybeArray (t : Value) (pred : Value → Bool) : Bool :=
  let p := fun x => !(isNullish x) && pred x
  match t with
  | .arr elems => elems.any p
  | _ => p t

/-- The L3 element check from the closure in `buildPredicate`:
`item[l3] !== undefined && item[l3] !== null || item.type === l3`. -/
def l3check (l3 : String) (item : Value) : Bool :=
  (!(isUndefined (getProp item l3)) && !(isNull (getProp item l3))) || typeEq item l3

/-- The evaluation body of the closure returned by `buildPredicate` in
`src/mod.ts`, for a path with a present non-empty L1 segment. -/
def evalPred (l1 : String) (l2 l3 : Option String) (update : Value) : Bool :=
  let l1Value := getProp update l1
  if isNullish l1Value then false
  else
    match l2 with
    | none => true
    | some k2 =>
      let l2Value := getProp l1Value k2
      if isNullish l2Value then false
      else
        match l3 with
        | none => true
        | some k3 => testMaybeArray l2Value (l3check k3)

/-- Embeds `buildPredicate` from `src/mod.ts`.  The construction-time throw
on a missing or empty L1 segment is modelled by `none`. -/
def buildPredicate (path : List (Option String)) : Option (Value → Bool) :=
  match (path.get? 0).join with
  | none => none
  | some s1 =>
    if s1 = "" then none
    else some (evalPred s1 ((path.get? 1).join) ((path.get? 2).join))

/-- Embeds `compile` from `src/mod.ts`: build every predicate eagerly (a
throw from any `buildPredicate` aborts compilation) and OR them. -/
def compile (paths : List (List (Option String))) : Option (Value → Bool) :=
  match paths.mapM buildPredicate with
  | none => none
  | some predicates => some (fun update => predicates.any (fun p => p update))

/-- Embeds `runtimeQuery` from `src/mod.ts` on a list of query strings (a
single-string call is the singleton list). -/
def runtimeQuery (queries : List String) : Option (Value → Bool) :=
  compile (queries.flatMap (fun q => expand (parse q)))

/-- Instrumented property access: JavaScript `v[key]` throws a TypeError
when `v` is `null` or `undefined`; `Except` makes that explicit. -/
def getPropE (v : Value) (key : String) : Except Unit Value :=
  if isNullish v then .error () else .ok (getProp v key)

/-- Short-circuiting `Array.prototype.some` in the throwing model. -/
def anyE : List Value → (Value → Except Unit Bool) → Except Unit Bool
  | [], _ => .ok false
  | x :: xs, p => do
    let b ← p x
    if b then pure true else anyE xs p

/-- The body of `testMaybeArray` in the throwing model: the null guard of
`p` runs before the inner predicate, exactly as in the source. -/
def testMaybeArrayE (t : Value) (pred : Value → Except Unit Bool) :
    Except Unit Bool :=
  let p := fun x => if isNullish x then pure false else pred x
  match t with
  | .arr elems => anyE elems p
  | _ => p t

/-- The L3 element check of `buildPredicate` in the throwing model; every
property read on `item` goes through `getPropE`. -/
def l3checkE (l3 : String) (item : Value) : Except Unit Bool := do
  let v1 ← getPropE item l3
  let v2 ← getPropE item l3
  let t ← getPropE item "type"
  pure ((!(isUndefined v1) && !(isNull v2)) ||
    (match t with | .str s => s == l3 | _ => false))

/-- The evaluation body of the compiled predicate in the throwing model:
the same lookup chain as `evalPred`, with every property access through
`getPropE` so that a read on a nullish value surfaces as `.error`. -/
def evalPredE (l1 : String) (l2 l3 : Option String) (update : Value) :
    Except Unit Bool := do
  let l1Value ← getPropE update l1
  if isNullish l1Value then pure false
  else
    match l2 with
    | none => pure true
    | some k2 => do
      let l2Value ← getPropE l1Value k2
      if isNullish l2Value then pure false
      else
        match l3 with
        | none => pure true
        | some k3 => testMaybeArrayE l2Value (l3checkE k3)

/-- Modelled from the claim for comparison: the L1 expansion set of a
segment — the L1 table's value list when the segment is a table key,
otherwise the singleton of the segment itself. -/
def expandL1Spec (l1 : Option String) : List (Option String) :=
  match l1 with
  | some s =>
    match List.lookup s L1_SHORTCUTS with
    | some targets => targets.map some
    | none => [l1]
  | none => [l1]

/-- Modelled from the claim for comparison: the L2 expansion set of a
segment over the L2 table. -/
def expandL2Spec (l2 : Option String) : List (Option String) :=
  match l2 with
  | some s =>
    match List.lookup s L2_SHORTCUTS with
    | some targets => targets.map some
    | none => [l2]
  | none => [l2]

/-- Follows the words of the three-segment claim, sibling-level fallback
included: true iff `E[k1][k2]` exists and is non-null and either the
element check on it succeeds, or that check fails but `E[k1][k3]` exists
and is non-null. -/
def specL3Predicate (k1 k2 k3 : String) (E : Value) : Bool :=
  let v2 := getProp (getProp E k1) k2
  let primary := testMaybeArray v2 (l3check k3)
  !(isNullish v2) &&
    (primary || (!primary && !(isNullish (getProp (getProp E k1) k3))))

open Value in
/-- The update object of the first test in `src/mod.test.ts`: a message
carrying a photo (whose sizes lack `media_group_id`) and a
`media_group_id` on the message itself. -/
def testUpdate1 : Value :=
  obj [("update_id", num 1),
       ("message", obj [("message_id", num 1),
                        ("chat", obj [("id", num 1), ("type", str "private")]),
                        ("date", num 0),
                        ("photo", arr [obj [("file_id", str "a"),
                                            ("file_unique_id", str "b"),
                                            ("width", num 1),
                                            ("height", num 1)]]),
                        ("media_group_id", str "mg1")])]

/-! ### Basic lemmas about the parser -/

theorem splitColonAux_ne_nil (l : List Char) : splitColonAux l ≠ [] := by
  induction l with
  | nil => simp [splitColonAux]
  | cons c cs ih =>
    simp only [splitColonAux]
    split
    · simp
    · split
      · simp
      · simp

theorem splitColonAux_no_colon (l : List Char) (h : ∀ c ∈ l, c ≠ ':') :
    splitColonAux l = [String.mk l] := by
  induction l with
  | nil => rfl
  | cons c cs ih =>
    have hc : ¬ c = ':' := h c (List.mem_cons_self c cs)
    have ihe := ih (fun x hx => h x (List.mem_cons_of_mem c hx))
    simp only [splitColonAux, if_neg hc, ihe]

theorem splitColonAux_append (l r : List Char) (h : ∀ c ∈ l, c ≠ ':') :
    splitColonAux (l ++ ':' :: r) = String.mk l :: splitColonAux r := by
  induction l with
  | nil => simp [splitColonAux]
  | cons c cs ih =>
    have hc : ¬ c = ':' := h c (List.mem_cons_self c cs)
    have ihe := ih (fun x hx => h x (List.mem_cons_of_mem c hx))
    simp only [List.cons_append, splitColonAux, if_neg hc, List.append_eq, ihe]

theorem splitColonAux_all_empty (l : List Char) (h : ∀ c ∈ l, c = ':') :
    ∀ s ∈ splitColonAux l, s = "" := by
  induction l with
  | nil =>
    intro s hs
    simp [splitColonAux] at hs
    exact hs
  | cons c cs ih =>
    have hc : c = ':' := h c (List.mem_cons_self c cs)
    intro s hs
    simp only [splitColonAux, if_pos hc] at hs
    rcases List.mem_cons.mp hs with h1 | h2
    · exact h1
    · exact ih (fun x hx => h x (List.mem_cons_of_mem c hx)) s h2

/-! ### Lemmas about shortcut-table lookups -/

theorem lookup_L1_none (k : String) (h1 : k ≠ "") (h2 : k ≠ "msg")
    (h3 : k ≠ "edit") : List.lookup k L1_SHORTCUTS = none := by
  have b1 : (k == "") = false := beq_eq_false_iff_ne.mpr h1
  have b2 : (k == "msg") = false := beq_eq_false_iff_ne.mpr h2
  have b3 : (k == "edit") = false := beq_eq_false_iff_ne.mpr h3
  simp [L1_SHORTCUTS, List.lookup, b1, b2, b3]

theorem lookup_L2_none (k : String) (h1 : k ≠ "") (h2 : k ≠ "media")
    (h3 : k ≠ "file") : List.lookup k L2_SHORTCUTS = none := by
  have b1 : (k == "") = false := beq_eq_false_iff_ne.mpr h1
  have b2 : (k == "media") = false := beq_eq_false_iff_ne.mpr h2
  have b3 : (k == "file") = false := beq_eq_false_iff_ne.mpr h3
  simp [L2_SHORTCUTS, List.lookup, b1, b2, b3]

/-! ### Lemmas about `List.mapM` in the `Option` monad -/

theorem mapM_opt_eq_some {α β : Type} (f : α → Option β) :
    ∀ l : List α, (∀ x ∈ l, (f x).isSome) → l.mapM f = some (l.filterMap f) := by
  intro l
  induction l with
  | nil => intro _; rfl
  | cons x xs ih =>
    intro h
    have hx : (f x).isSome := h x (List.mem_cons_self x xs)
    obtain ⟨b, hb⟩ := Option.isSome_iff_exists.mp hx
    have ihe := ih (fun y hy => h y (List.mem_cons_of_mem x hy))
    rw [List.mapM_cons, hb, ihe]
    simp [List.filterMap_cons, hb]

theorem mapM_opt_eq_none {α β : Type} (f : α → Option β) :
    ∀ l : List α, (¬ ∀ x ∈ l, (f x).isSome) → l.mapM f = none := by
  intro l
  induction l with
  | nil => intro h; exact absurd (by simp) h
  | cons x xs ih =>
    intro h
    rw [List.mapM_cons]
    by_cases hx : (f x).isSome
    · obtain ⟨b, hb⟩ := Option.isSome_iff_exists.mp hx
      have : ¬ ∀ y ∈ xs, (f y).isSome := by
        intro hall
        exact h (by
          intro y hy
          rcases List.mem_cons.mp hy with rfl | hmem
          · exact hx
          · exact hall y hmem)
      rw [hb, ih this]
      rfl
    · rw [Option.not_isSome_iff_eq_none.mp hx]
      rfl

/-! ### Lemmas about `compile` -/

theorem compile_eq_some (paths : List (List (Option String)))
    (h : ∀ path ∈ paths, (buildPredicate path).isSome) :
    compile paths =
      some (fun u => (paths.filterMap buildPredicate).any (fun p => p u)) := by
  unfold compile
  rw [mapM_opt_eq_some buildPredicate paths h]

theorem compile_eq_none (paths : List (List (Option String)))
    (h : ¬ ∀ path ∈ paths, (buildPredicate path).isSome) :
    compile paths = none := by
  unfold compile
  rw [mapM_opt_eq_none buildPredicate paths h]

theorem compile_singleton (path : List (Option String)) (p : Value → Bool)
    (h : buildPredicate path = some p) : compile [path] = some p := by
  unfold compile
  rw [List.mapM_cons, h, List.mapM_nil]
  simp

/-! ### Evaluation-shape lemmas -/

theorem evalPred_l1_only (k : String) (E : Value) :
    evalPred k none none E = !(isNullish (getProp E k)) := by
  unfold evalPred
  cases h : isNullish (getProp E k) <;> simp [h]

theorem evalPred_l1_l2 (k1 k2 : String) (E : Value) :
    evalPred k1 (some k2) none E =
      (!(isNullish (getProp E k1)) &&
        !(isNullish (getProp (getProp E k1) k2))) := by
  unfold evalPred
  cases h1 : isNullish (getProp E k1) <;>
    cases h2 : isNullish (getProp (getProp E k1) k2) <;> simp [h1, h2]

theorem evalPred_l3 (k1 k2 k3 : String) (E : Value) :
    evalPred k1 (some k2) (some k3) E =
      (!(isNullish (getProp E k1)) &&
        (!(isNullish (getProp (getProp E k1) k2)) &&
          testMaybeArray (getProp (getProp E k1) k2) (l3check k3))) := by
  unfold evalPred
  cases h1 : isNullish (getProp E k1) <;>
    cases h2 : isNullish (getProp (getProp E k1) k2) <;> simp [h1, h2]

theorem lookupField_self (k : String) (v : Value) (rest : List (String × Value)) :
    lookupField ((k, v) :: rest) k = v := by
  simp [lookupField]

/-! ### The throwing evaluation model agrees with the pure one -/

theorem getPropE_ok (v : Value) (k : String) (h : isNullish v = false) :
    getPropE v k = .ok (getProp v k) := by
  simp [getPropE, h]

theorem l3checkE_ok (k3 : String) (item : Value) (h : isNullish item = false) :
    l3checkE k3 item = .ok (l3check k3 item) := by
  cases item <;> first | rfl | simp [isNullish] at h

theorem except_bind_ok {α β : Type} (a : α) (f : α → Except Unit β) :
    (Except.ok a >>= f) = f a := rfl

theorem anyE_ok (pE : Value → Except Unit Bool) (pB : Value → Bool)
    (l : List Value) (h : ∀ x ∈ l, pE x = .ok (pB x)) :
    anyE l pE = .ok (l.any pB) := by
  induction l with
  | nil => rfl
  | cons x xs ih =>
    have hx := h x (List.mem_cons_self x xs)
    have ihe := ih (fun y hy => h y (List.mem_cons_of_mem x hy))
    unfold anyE
    rw [hx, except_bind_ok]
    cases hpb : pB x with
    | true =>
      simp only [hpb, List.any_cons, Bool.true_or, if_true]
      rfl
    | false =>
      simp only [hpb, List.any_cons, Bool.false_or, Bool.false_eq_true,
        if_false, ihe]

theorem testMaybeArrayE_ok (t : Value) (pE : Value → Except Unit Bool)
    (pB : Value → Bool) (h : ∀ x, isNullish x = false → pE x = .ok (pB x)) :
    testMaybeArrayE t pE = .ok (testMaybeArray t pB) := by
  have hguard : ∀ x, (if isNullish x then pure false else pE x) =
      Except.ok (!(isNullish x) && pB x) := by
    intro x
    cases hx : isNullish x with
    | true => simp [hx]; rfl
    | false => simp [hx, h x hx]
  unfold testMaybeArrayE testMaybeArray
  cases t with
  | arr elems => exact anyE_ok _ _ elems (fun x _ => hguard x)
  | vnull => exact hguard _
  | vundefined => exact hguard _
  | str s => exact hguard _
  | num n => exact hguard _
  | boolean b => exact hguard _
  | obj fields => exact hguard _

theorem evalPredE_ok (l1 : String) (l2 l3 : Option String) (E : Value)
    (hE : isNullish E = false) :
    evalPredE l1 l2 l3 E = .ok (evalPred l1 l2 l3 E) := by
  unfold evalPredE evalPred
  rw [getPropE_ok E l1 hE, except_bind_ok]
  cases h1 : isNullish (getProp E l1) with
  | true =>
    simp only [h1, if_true]
    rfl
  | false =>
    simp only [h1, Bool.false_eq_true, if_false]
    cases l2 with
    | none => rfl
    | some k2 =>
      dsimp only
      rw [getPropE_ok (getProp E l1) k2 h1, except_bind_ok]
      cases h2 : isNullish (getProp (getProp E l1) k2) with
      | true =>
        simp only [h2, if_true]
        rfl
      | false =>
        simp only [h2, Bool.false_eq_true, if_false]
        cases l3 with
        | none => rfl
        | some k3 =>
          exact testMaybeArrayE_ok _ _ _ (fun x hx => l3checkE_ok k3 x hx)

/-! ### Cross-product shape of the expander -/

theorem flatMap_map_aux {α β γ : Type} (l : List α) (f : α → β)
    (g : β → List γ) : (l.map f).flatMap g = l.flatMap (fun x => g (f x)) := by
  induction l with
  | nil => rfl
  | cons x xs ih => simp [List.map_cons, List.flatMap_cons, ih]

theorem expandCore_eq (l1 l2 l3 : Option String) :
    expandCore l1 l2 l3 = (expandL1Spec l1).flatMap
      (fun a => (expandL2Spec l2).map (fun b => [a, b, l3])) := by
  unfold expandCore expandL1Spec expandL2Spec
  cases l1 with
  | none =>
    cases l2 with
    | none => simp
    | some s2 =>
      cases hl2 : List.lookup s2 L2_SHORTCUTS with
      | none => simp [hl2]
      | some ts2 => simp [hl2, List.map_map]
  | some s1 =>
    cases hl1 : List.lookup s1 L1_SHORTCUTS with
    | none =>
      cases l2 with
      | none => simp [hl1]
      | some s2 =>
        cases hl2 : List.lookup s2 L2_SHORTCUTS with
        | none => simp [hl1, hl2]
        | some ts2 => simp [hl1, hl2, List.map_map]
    | some ts1 =>
      simp only [hl1]
      rw [flatMap_map_aux, flatMap_map_aux]
      congr 1
      funext s
      cases l2 with
      | none => simp
      | some s2 =>
        cases hl2 : List.lookup s2 L2_SHORTCUTS with
        | none => simp [hl2]
        | some ts2 => simp [hl2, List.map_map]

/-! ### Pipeline lemmas for literal queries -/

theorem expand_single_literal (k : String) (hne : k ≠ "") (hmsg : k ≠ "msg")
    (hedit : k ≠ "edit") : expand [k] = [[some k, none, none]] := by
  have hb : (k == "") = false := beq_eq_false_iff_ne.mpr hne
  unfold expand expandCore
  simp [falsy, hb, lookup_L1_none k hne hmsg hedit]

theorem expand_two_literals (k1 k2 : String) (hne1 : k1 ≠ "")
    (hmsg : k1 ≠ "msg") (hedit : k1 ≠ "edit") (hne2 : k2 ≠ "")
    (hmedia : k2 ≠ "media") (hfile : k2 ≠ "file") :
    expand [k1, k2] = [[some k1, some k2, none]] := by
  have hb : (k1 == "") = false := beq_eq_false_iff_ne.mpr hne1
  unfold expand expandCore
  simp [falsy, hb, lookup_L1_none k1 hne1 hmsg hedit,
    lookup_L2_none k2 hne2 hmedia hfile]

theorem buildPredicate_triple (k : String) (hne : k ≠ "")
    (l2 l3 : Option String) :
    buildPredicate [some k, l2, l3] = some (evalPred k l2 l3) := by
  simp [buildPredicate, hne]

theorem expand_three_literals (k1 k2 t3 : String) (hne1 : k1 ≠ "")
    (hmsg : k1 ≠ "msg") (hedit : k1 ≠ "edit") (hne2 : k2 ≠ "")
    (hmedia : k2 ≠ "media") (hfile : k2 ≠ "file") :
    expand [k1, k2, t3] = [[some k1, some k2, some t3]] := by
  have hb : (k1 == "") = false := beq_eq_false_iff_ne.mpr hne1
  unfold expand expandCore
  simp [falsy, hb, lookup_L1_none k1 hne1 hmsg hedit,
    lookup_L2_none k2 hne2 hmedia hfile]

theorem runtimeQuery_singleton_paths (q : String) :
    ([q].flatMap fun x => expand (parse x)) = expand (parse q) := by
  simp

theorem any_perm {α : Type} (f : α → Bool) {l l' : List α} (hp : l.Perm l') :
    l.any f = l'.any f := by
  cases hb : l'.any f with
  | true =>
    obtain ⟨x, hx, hfx⟩ := List.any_eq_true.mp hb
    exact List.any_eq_true.mpr ⟨x, hp.mem_iff.mpr hx, hfx⟩
  | false =>
    cases hb' : l.any f with
    | false => rfl
    | true =>
      obtain ⟨x, hx, hfx⟩ := List.any_eq_true.mp hb'
      have hcontra : l'.any f = true :=
        List.any_eq_true.mpr ⟨x, hp.mem_iff.mp hx, hfx⟩
      rw [hcontra] at hb
      exact Bool.noConfusion hb

theorem mapM_opt_mem_isSome {α β : Type} (f : α → Option β) (l : List α)
    (r : List β) (h : l.mapM f = some r) : ∀ x ∈ l, (f x).isSome := by
  intro x hx
  by_contra hns
  rw [mapM_opt_eq_none f l (fun hall => hns (hall x hx))] at h
  exact Option.noConfusion h

theorem compile_any_iff (paths : List (List (Option String)))
    (p : Value → Bool) (E : Value) (hc : compile paths = some p) :
    (p E = true ↔ ∃ path ∈ paths, ∃ pr, buildPredicate path = some pr ∧
      pr E = true) := by
  unfold compile at hc
  cases hm : paths.mapM buildPredicate with
  | none =>
    rw [hm] at hc
    exact Option.noConfusion hc
  | some preds =>
    rw [hm] at hc
    have hp : p = fun u => preds.any (fun pr => pr u) := (Option.some.inj hc).symm
    have hall := mapM_opt_mem_isSome buildPredicate paths preds hm
    have hr : preds = paths.filterMap buildPredicate := by
      have he := mapM_opt_eq_some buildPredicate paths hall
      rw [hm] at he
      exact Option.some.inj he
    rw [hp, hr]
    constructor
    · intro hany
      obtain ⟨pr, hmem, hprE⟩ := List.any_eq_true.mp hany
      obtain ⟨path, hpath, hbp⟩ := List.mem_filterMap.mp hmem
      exact ⟨path, hpath, pr, hbp, hprE⟩
    · rintro ⟨path, hpath, pr, hbp, hprE⟩
      exact List.any_eq_true.mpr
        ⟨pr, List.mem_filterMap.mpr ⟨path, hpath, hbp⟩, hprE⟩

theorem compile_map_eval_perm (paths paths' : List (List (Option String)))
    (hperm : paths.Perm paths') (E : Value) :
    (compile paths).map (fun p => p E) =
      (compile paths').map (fun p => p E) := by
  by_cases hall : ∀ path ∈ paths, (buildPredicate path).isSome
  · have hall' : ∀ path ∈ paths', (buildPredicate path).isSome :=
      fun path hm => hall path (hperm.mem_iff.mpr hm)
    rw [compile_eq_some _ hall, compile_eq_some _ hall']
    simp only [Option.map_some']
    congr 1
    exact any_perm _ (hperm.filterMap buildPredicate)
  · have hall' : ¬ ∀ path ∈ paths', (buildPredicate path).isSome :=
      fun hc => hall (fun path hm => hc path (hperm.mem_iff.mp hm))
    rw [compile_eq_none _ hall, compile_eq_none _ hall']

theorem expand_cons3 (a b c : String) (rest : List String) :
    expand (a :: b :: c :: rest) =
      if falsy (some a) && falsy (some b) && falsy (some c) then
        [(a :: b :: c :: rest).map some]
      else expandCore (some a) (some b) (some c) := rfl

/-! ### Claim theorems -/

/-- C2: compiling the fully empty query `""`, or any query consisting only
of `:` separators, fails at compile time (modelled by `none`, the throw of
the Invalid Query Error inside `buildPredicate`), while compiling the
query `"message"` succeeds. -/
theorem claim2_empty_query_raises :
    (∀ q : String, (∀ c ∈ q.data, c = ':') → runtimeQuery [q] = none) ∧
    (runtimeQuery ["message"]).isSome = true := by
  constructor
  · intro q hall
    have hnil := splitColonAux_ne_nil q.data
    have hempty := splitColonAux_all_empty q.data hall
    cases hp : splitColonAux q.data with
    | nil => exact absurd hp hnil
    | cons s0 rest =>
      rw [hp] at hempty
      have hs0 : s0 = "" := hempty s0 (List.mem_cons_self s0 rest)
      have hfal : ∀ i, falsy ((s0 :: rest).get? i) = true := by
        intro i
        cases hgi : (s0 :: rest).get? i with
        | none => rfl
        | some s =>
          have hmem : s ∈ s0 :: rest := List.get?_mem hgi
          simp [falsy, hempty s hmem]
      have hexp : expand (s0 :: rest) = [(s0 :: rest).map some] := by
        unfold expand
        rw [hfal 0, hfal 1, hfal 2]
        simp
      have hbp : buildPredicate ((s0 :: rest).map some) = none := by
        simp [buildPredicate, hs0]
      have hrw : runtimeQuery [q] = compile [(s0 :: rest).map some] := by
        unfold runtimeQuery parse
        simp [hp, hexp]
      rw [hrw, compile_eq_none]
      intro hallsome
      have hcontra := hallsome ((s0 :: rest).map some) (by simp)
      rw [hbp] at hcontra
      exact absurd hcontra (by simp)
  · rfl

/-- Witness for C2 at the concrete all-separator query `"::"`. -/
theorem claim2_witness : runtimeQuery ["::"] = none :=
  claim2_empty_query_raises.1 "::" (by decide)

/-- C3: for a non-empty literal single-segment query `k` (not an L1
shortcut key) the compiled predicate tests exactly that `E[k]` is present
and non-null, whatever the shape of `E[k]`. -/
theorem claim3_single_segment (k : String) (hne : k ≠ "")
    (hcolon : ∀ c ∈ k.data, c ≠ ':') (hmsg : k ≠ "msg") (hedit : k ≠ "edit") :
    ∃ p, runtimeQuery [k] = some p ∧
      ∀ E, p E = !(isNullish (getProp E k)) := by
  have hparse : parse k = [k] := by
    unfold parse
    rw [splitColonAux_no_colon k.data hcolon]
  have hrq : runtimeQuery [k] = some (evalPred k none none) := by
    unfold runtimeQuery
    rw [show ([k].flatMap fun q => expand (parse q)) = expand (parse k) by simp]
    rw [hparse, expand_single_literal k hne hmsg hedit]
    exact compile_singleton _ _ (buildPredicate_triple k hne none none)
  exact ⟨_, hrq, fun E => evalPred_l1_only k E⟩

/-- Witness for C3 at the concrete query `"text"` and two events, one with
the key present and one without. -/
theorem claim3_witness :
    ∃ p, runtimeQuery ["text"] = some p ∧
      ∀ E, p E = !(isNullish (getProp E "text")) :=
  claim3_single_segment "text" (by decide) (by decide) (by decide) (by decide)

/-- C4: for a two-segment query `k1:k2` of literal non-shortcut segments,
the compiled predicate tests that `E[k1]` is non-null and `E[k1][k2]` is
present and non-null. -/
theorem claim4_two_segments (k1 k2 : String) (hne1 : k1 ≠ "")
    (hcolon1 : ∀ c ∈ k1.data, c ≠ ':') (hmsg : k1 ≠ "msg")
    (hedit : k1 ≠ "edit") (hne2 : k2 ≠ "")
    (hcolon2 : ∀ c ∈ k2.data, c ≠ ':') (hmedia : k2 ≠ "media")
    (hfile : k2 ≠ "file") :
    ∃ p, runtimeQuery [k1 ++ ":" ++ k2] = some p ∧
      ∀ E, p E = (!(isNullish (getProp E k1)) &&
        !(isNullish (getProp (getProp E k1) k2))) := by
  have hdata : (k1 ++ ":" ++ k2).data = k1.data ++ ':' :: k2.data := by
    simp [String.data_append]
  have hparse : parse (k1 ++ ":" ++ k2) = [k1, k2] := by
    unfold parse
    rw [hdata, splitColonAux_append k1.data k2.data hcolon1,
      splitColonAux_no_colon k2.data hcolon2]
  have hrq : runtimeQuery [k1 ++ ":" ++ k2] =
      some (evalPred k1 (some k2) none) := by
    unfold runtimeQuery
    rw [show ([k1 ++ ":" ++ k2].flatMap fun q => expand (parse q)) =
      expand (parse (k1 ++ ":" ++ k2)) by simp]
    rw [hparse, expand_two_literals k1 k2 hne1 hmsg hedit hne2 hmedia hfile]
    exact compile_singleton _ _ (buildPredicate_triple k1 hne1 (some k2) none)
  exact ⟨_, hrq, fun E => evalPred_l1_l2 k1 k2 E⟩

/-- Witness for C4 at the concrete query `"message:text"`. -/
theorem claim4_witness :
    ∃ p, runtimeQuery ["message:text"] = some p ∧
      ∀ E, p E = (!(isNullish (getProp E "message")) &&
        !(isNullish (getProp (getProp E "message") "text"))) :=
  claim4_two_segments "message" "text" (by decide) (by decide) (by decide)
    (by decide) (by decide) (by decide) (by decide) (by decide)

/-- C1 is refuted by the code: on the update object of the repository's own
first test (`testUpdate1`, a message with a photo and a `media_group_id` on
the message itself), the predicate compiled from `":media:media_group_id"`
returns false — `buildPredicate` implements no sibling-level fallback — while
the claim's predicate with the fallback (`specL3Predicate`, on the concrete
path `message:photo:media_group_id`) is true, as is the closest concrete
instance of clause (b): the element check fails yet `E[k1][k3]` is non-null. -/
theorem claim1_fallback_missing :
    (runtimeQuery [":media:media_group_id"]).map (fun p => p testUpdate1) =
      some false ∧
    evalPred "message" (some "photo") (some "media_group_id") testUpdate1 =
      false ∧
    specL3Predicate "message" "photo" "media_group_id" testUpdate1 = true := by
  refine ⟨by decide, by decide, by decide⟩

/-- C5: a successfully compiled predicate never throws — in the throwing
evaluation model (`evalPredE`, where property access on a nullish value is
an explicit `.error`), evaluating the predicate of any compiled path on any
non-nullish event returns `.ok` of exactly the pure result. -/
theorem claim5_never_throws (path : List (Option String)) (p : Value → Bool)
    (E : Value) (hc : buildPredicate path = some p)
    (hE : isNullish E = false) :
    ∃ l1, (path.get? 0).join = some l1 ∧
      evalPredE l1 ((path.get? 1).join) ((path.get? 2).join) E = .ok (p E) := by
  unfold buildPredicate at hc
  cases hj : (path.get? 0).join with
  | none =>
    rw [hj] at hc
    exact absurd hc (by simp)
  | some s1 =>
    rw [hj] at hc
    dsimp only at hc
    by_cases hs : s1 = ""
    · rw [if_pos hs] at hc
      exact absurd hc (by simp)
    · rw [if_neg hs] at hc
      have hp : p = evalPred s1 ((path.get? 1).join) ((path.get? 2).join) :=
        (Option.some.inj hc).symm
      exact ⟨s1, rfl, by rw [hp]; exact evalPredE_ok s1 _ _ E hE⟩

/-- Witness for C5 at the compiled path of query `"message"` and an event
containing a null `message`, an array with a null element nearby. -/
theorem claim5_witness :
    ∃ l1, (([some "message", none, none] : List (Option String)).get? 0).join =
        some l1 ∧
      evalPredE l1 ((([some "message", none, none] :
          List (Option String)).get? 1).join)
        ((([some "message", none, none] : List (Option String)).get? 2).join)
        (Value.obj [("message", Value.vnull)]) =
        .ok (evalPred "message" none none
          (Value.obj [("message", Value.vnull)])) :=
  claim5_never_throws [some "message", none, none]
    (evalPred "message" none none)
    (Value.obj [("message", Value.vnull)]) rfl rfl

/-- C6: for every parsed path that is not entirely empty, expansion is
exactly the ordered cross-product of the L1 expansion of the first segment
with the L2 expansion of the second, every concrete path carrying the
original third segment unchanged (the third segment is never expanded). -/
theorem claim6_expansion_cross_product (parts : List String)
    (h : (falsy (parts.get? 0) && falsy (parts.get? 1) &&
      falsy (parts.get? 2)) = false) :
    expand parts = (expandL1Spec (parts.get? 0)).flatMap
      (fun a => (expandL2Spec (parts.get? 1)).map
        (fun b => [a, b, parts.get? 2])) := by
  have hneg : ¬ ((falsy (parts.get? 0) && falsy (parts.get? 1) &&
      falsy (parts.get? 2)) = true) := by
    rw [h]
    decide
  unfold expand
  rw [if_neg hneg]
  exact expandCore_eq _ _ _

/-- Witness for C6 at the parsed path of `":media:x"`. -/
theorem claim6_witness :
    expand ["", "media", "x"] =
      (expandL1Spec (((["", "media", "x"] : List String)).get? 0)).flatMap
        (fun a =>
          (expandL2Spec (((["", "media", "x"] : List String)).get? 1)).map
            (fun b => [a, b, ((["", "media", "x"] : List String)).get? 2])) :=
  claim6_expansion_cross_product ["", "media", "x"] (by decide)

/-- C7: the predicate compiled from the single query `":media"` agrees on
every event with the OR-combined predicate compiled from the query list
`["message:media", "channel_post:media"]`. -/
theorem claim7_shortcut_distribution :
    ∀ E, (runtimeQuery [":media"]).map (fun p => p E) =
      (runtimeQuery ["message:media", "channel_post:media"]).map
        (fun p => p E) :=
  fun _ => rfl

/-- C10: a trailing empty third segment is not ignored — `k1:k2:` parses
with an empty-string L3 (not an absent one), its predicate demands an
element of `E[k1][k2]` with a non-null property named `""` or a `type`
equal to `""`, and on the event `{k1: {k2: {x: 1}}}` the queries `k1:k2`
and `k1:k2:` compile to predicates giving true and false respectively. -/
theorem claim10_trailing_empty_segment (k1 k2 : String) (hne1 : k1 ≠ "")
    (hcolon1 : ∀ c ∈ k1.data, c ≠ ':') (hmsg : k1 ≠ "msg")
    (hedit : k1 ≠ "edit") (hne2 : k2 ≠ "")
    (hcolon2 : ∀ c ∈ k2.data, c ≠ ':') (hmedia : k2 ≠ "media")
    (hfile : k2 ≠ "file") :
    (parse (k1 ++ ":" ++ k2 ++ ":")).get? 2 = some "" ∧
    ∃ p1 p2, runtimeQuery [k1 ++ ":" ++ k2 ++ ":"] = some p1 ∧
      runtimeQuery [k1 ++ ":" ++ k2] = some p2 ∧
      (∀ E, p1 E = (!(isNullish (getProp E k1)) &&
        (!(isNullish (getProp (getProp E k1) k2)) &&
          testMaybeArray (getProp (getProp E k1) k2) (l3check "")))) ∧
      p2 (Value.obj [(k1, .obj [(k2, .obj [("x", .num 1)])])]) = true ∧
      p1 (Value.obj [(k1, .obj [(k2, .obj [("x", .num 1)])])]) = false := by
  have hdata1 : (k1 ++ ":" ++ k2 ++ ":").data =
      k1.data ++ ':' :: (k2.data ++ ':' :: []) := by
    simp [String.data_append]
  have hparse1 : parse (k1 ++ ":" ++ k2 ++ ":") = [k1, k2, ""] := by
    unfold parse
    rw [hdata1, splitColonAux_append k1.data _ hcolon1,
      splitColonAux_append k2.data _ hcolon2]
    rfl
  have hdata2 : (k1 ++ ":" ++ k2).data = k1.data ++ ':' :: k2.data := by
    simp [String.data_append]
  have hparse2 : parse (k1 ++ ":" ++ k2) = [k1, k2] := by
    unfold parse
    rw [hdata2, splitColonAux_append k1.data k2.data hcolon1,
      splitColonAux_no_colon k2.data hcolon2]
  have hrq1 : runtimeQuery [k1 ++ ":" ++ k2 ++ ":"] =
      some (evalPred k1 (some k2) (some "")) := by
    unfold runtimeQuery
    rw [show ([k1 ++ ":" ++ k2 ++ ":"].flatMap fun q => expand (parse q)) =
      expand (parse (k1 ++ ":" ++ k2 ++ ":")) by simp]
    rw [hparse1,
      expand_three_literals k1 k2 "" hne1 hmsg hedit hne2 hmedia hfile]
    exact compile_singleton _ _ (buildPredicate_triple k1 hne1 (some k2)
      (some ""))
  have hrq2 : runtimeQuery [k1 ++ ":" ++ k2] =
      some (evalPred k1 (some k2) none) := by
    unfold runtimeQuery
    rw [show ([k1 ++ ":" ++ k2].flatMap fun q => expand (parse q)) =
      expand (parse (k1 ++ ":" ++ k2)) by simp]
    rw [hparse2, expand_two_literals k1 k2 hne1 hmsg hedit hne2 hmedia hfile]
    exact compile_singleton _ _ (buildPredicate_triple k1 hne1 (some k2) none)
  have hget1 : getProp (Value.obj [(k1, Value.obj [(k2,
      Value.obj [("x", Value.num 1)])])]) k1 =
      Value.obj [(k2, Value.obj [("x", Value.num 1)])] := by
    simp [getProp, lookupField_self]
  have hget2 : getProp (Value.obj [(k2, Value.obj [("x", Value.num 1)])]) k2 =
      Value.obj [("x", Value.num 1)] := by
    simp [getProp, lookupField_self]
  refine ⟨by rw [hparse1]; rfl, evalPred k1 (some k2) (some ""),
    evalPred k1 (some k2) none, hrq1, hrq2,
    fun E => evalPred_l3 k1 k2 "" E, ?_, ?_⟩
  · rw [evalPred_l1_l2, hget1, hget2]
    simp [isNullish]
  · rw [evalPred_l3, hget1, hget2]
    simp [isNullish]
    decide

/-- C8: the OR-combined predicate of a query list is true exactly when the
predicate of at least one constituent query is true, and the boolean result
is invariant under any permutation of the query list as well as under any
permutation of the compiled concrete paths. -/
theorem claim8_or_combination :
    (∀ (qs : List String) (p : Value → Bool) (E : Value),
      runtimeQuery qs = some p →
      (p E = true ↔ ∃ q ∈ qs, ∃ pq, runtimeQuery [q] = some pq ∧
        pq E = true)) ∧
    (∀ (qs qs' : List String) (E : Value), qs.Perm qs' →
      (runtimeQuery qs).map (fun p => p E) =
        (runtimeQuery qs').map (fun p => p E)) ∧
    (∀ (paths paths' : List (List (Option String))) (E : Value),
      paths.Perm paths' →
      (compile paths).map (fun p => p E) =
        (compile paths').map (fun p => p E)) := by
  refine ⟨?_, ?_, fun paths paths' E hp => compile_map_eval_perm _ _ hp E⟩
  · intro qs p E hrq
    unfold runtimeQuery at hrq
    rw [compile_any_iff _ p E hrq]
    have hallpaths : ∀ pa ∈ (qs.flatMap fun x => expand (parse x)),
        (buildPredicate pa).isSome := by
      unfold compile at hrq
      cases hm : (qs.flatMap fun x => expand (parse x)).mapM buildPredicate with
      | none =>
        rw [hm] at hrq
        exact Option.noConfusion hrq
      | some preds => exact mapM_opt_mem_isSome _ _ preds hm
    constructor
    · rintro ⟨path, hpath, pr, hbp, hprE⟩
      obtain ⟨q, hq, hpmem⟩ := List.mem_flatMap.mp hpath
      have hallq : ∀ pa ∈ expand (parse q), (buildPredicate pa).isSome :=
        fun pa hpa => hallpaths pa (List.mem_flatMap.mpr ⟨q, hq, hpa⟩)
      refine ⟨q, hq, fun u => ((expand (parse q)).filterMap
        buildPredicate).any (fun pr => pr u), ?_, ?_⟩
      · unfold runtimeQuery
        rw [runtimeQuery_singleton_paths]
        exact compile_eq_some _ hallq
      · exact List.any_eq_true.mpr
          ⟨pr, List.mem_filterMap.mpr ⟨path, hpmem, hbp⟩, hprE⟩
    · rintro ⟨q, hq, pq, hpq, hpqE⟩
      unfold runtimeQuery at hpq
      rw [runtimeQuery_singleton_paths] at hpq
      obtain ⟨path, hpath, pr, hbp, hprE⟩ :=
        (compile_any_iff _ pq E hpq).mp hpqE
      exact ⟨path, List.mem_flatMap.mpr ⟨q, hq, hpath⟩, pr, hbp, hprE⟩
  · intro qs qs' E hperm
    unfold runtimeQuery
    exact compile_map_eval_perm _ _ (hperm.flatMap_right _) E

/-- Witness for C8: the constituent characterisation at the singleton list
`["text"]` and a matching event, and permutation invariance for a swapped
two-query list and for a reflexively permuted path list. -/
theorem claim8_witness :
    ((fun u => ([evalPred "text" none none] : List (Value → Bool)).any
        (fun pr => pr u)) (Value.obj [("text", Value.str "hi")]) = true ↔
      ∃ q ∈ ["text"], ∃ pq, runtimeQuery [q] = some pq ∧
        pq (Value.obj [("text", Value.str "hi")]) = true) ∧
    ((runtimeQuery ["message", "edit:text"]).map
        (fun p => p (Value.obj [("message", Value.obj [])])) =
      (runtimeQuery ["edit:text", "message"]).map
        (fun p => p (Value.obj [("message", Value.obj [])]))) ∧
    ((compile [[some "a", none, none]]).map (fun p => p (Value.obj [])) =
      (compile [[some "a", none, none]]).map (fun p => p (Value.obj []))) :=
  ⟨claim8_or_combination.1 ["text"] _ _ rfl,
   claim8_or_combination.2.1 ["message", "edit:text"] ["edit:text", "message"]
     (Value.obj [("message", Value.obj [])]) (List.Perm.swap _ _ _),
   claim8_or_combination.2.2 [[some "a", none, none]] [[some "a", none, none]]
     (Value.obj []) (List.Perm.refl _)⟩

/-- C9: the parser splits on every `:` preserving empty segments
(`"message::url"` gives three segments with an empty middle), and
compilation reads only the first three segments: a query with more than
three segments behaves on every event exactly like any query parsing to
its first three segments. -/
theorem claim9_truncation :
    parse "message::url" = ["message", "", "url"] ∧
    ∀ (q q' : String) (E : Value), 3 < (parse q).length →
      parse q' = (parse q).take 3 →
      (runtimeQuery [q]).map (fun p => p E) =
        (runtimeQuery [q']).map (fun p => p E) := by
  refine ⟨by decide, ?_⟩
  intro q q' E hlen hq'
  suffices hqq : runtimeQuery [q] = runtimeQuery [q'] by rw [hqq]
  unfold runtimeQuery
  rw [runtimeQuery_singleton_paths, runtimeQuery_singleton_paths, hq']
  generalize parse q = parts at hlen
  cases parts with
  | nil => simp at hlen
  | cons a t1 =>
    cases t1 with
    | nil => simp at hlen
    | cons b t2 =>
      cases t2 with
      | nil => simp at hlen
      | cons c rest =>
        have htake : (a :: b :: c :: rest).take 3 = [a, b, c] := by
          simp
        rw [htake, expand_cons3 a b c rest, expand_cons3 a b c []]
        cases hdeg : (falsy (some a) && falsy (some b) && falsy (some c)) with
        | false =>
          simp only [hdeg, Bool.false_eq_true, if_false]
        | true =>
          simp only [hdeg, if_true]
          have ha : a = "" := by
            simp only [Bool.and_eq_true] at hdeg
            exact eq_of_beq hdeg.1.1
          have hbp1 : buildPredicate ((a :: b :: c :: rest).map some) =
              none := by
            simp [buildPredicate, ha]
          have hbp2 : buildPredicate (([a, b, c]).map some) = none := by
            simp [buildPredicate, ha]
          have hn1 : ¬ ∀ path ∈ [(a :: b :: c :: rest).map some],
              (buildPredicate path).isSome := by
            intro hall
            have hh := hall ((a :: b :: c :: rest).map some) (by simp)
            rw [hbp1] at hh
            simp at hh
          have hn2 : ¬ ∀ path ∈ [([a, b, c]).map some],
              (buildPredicate path).isSome := by
            intro hall
            have hh := hall (([a, b, c]).map some) (by simp)
            rw [hbp2] at hh
            simp at hh
          rw [compile_eq_none _ hn1, compile_eq_none _ hn2]

/-- Witness for C9 at the four-segment query `"a:b:c:d"`, its three-segment
truncation `"a:b:c"`, and the empty event. -/
theorem claim9_witness :
    (runtimeQuery ["a:b:c:d"]).map (fun p => p (Value.obj [])) =
      (runtimeQuery ["a:b:c"]).map (fun p => p (Value.obj [])) :=
  claim9_truncation.2 "a:b:c:d" "a:b:c" (Value.obj []) (by decide) (by decide)

/-- Witness for C10 at the concrete queries `"a:b:"` and `"a:b"`. -/
theorem claim10_witness :
    (parse ("a" ++ ":" ++ "b" ++ ":")).get? 2 = some "" ∧
    ∃ p1 p2, runtimeQuery ["a" ++ ":" ++ "b" ++ ":"] = some p1 ∧
      runtimeQuery ["a" ++ ":" ++ "b"] = some p2 ∧
      (∀ E, p1 E = (!(isNullish (getProp E "a")) &&
        (!(isNullish (getProp (getProp E "a") "b")) &&
          testMaybeArray (getProp (getProp E "a") "b") (l3check "")))) ∧
      p2 (Value.obj [("a", .obj [("b", .obj [("x", .num 1)])])]) = true ∧
      p1 (Value.obj [("a", .obj [("b", .obj [("x", .num 1)])])]) = false :=
  claim10_trailing_empty_segment "a" "b" (by decide) (by decide) (by decide)
    (by decide) (by decide) (by decide) (by decide) (by decide)

end GrammyMatchQuery
